import Mathlib

/-!
Verification development for the `copulae` repository (Archimedean copula
abstraction, Empirical copula estimators, Stirling special functions).

The Python source is shallowly embedded: numeric arrays become `List (List ℚ)`
(rows of rationals), fallible operations return `Except PyErr`, and the
exception taxonomy of the source (ValueError / TypeError / AssertionError /
IndexError) becomes the `PyErr` inductive.  Real-valued logarithmic branches
use `ℝ` with `Real.log` / `Real.exp`.
-/

set_option autoImplicit false

deriving instance DecidableEq for Except

namespace Copulae

/-- The Python exception kinds raised by the embedded code. -/
inductive PyErr where
  | valueError (msg : String)
  | typeError (msg : String)
  | assertionError (msg : String)
  | indexError (msg : String)
  deriving DecidableEq, Repr

/-- `true` iff the computation returned normally (did not raise). -/
def isOkE {α : Type} : Except PyErr α → Bool
  | .ok _ => true
  | .error _ => false

/-- Sequencing of fallible element-wise computations: the first raised
exception aborts the whole computation, as in Python. -/
def exMapM {α β : Type} (f : α → Except PyErr β) : List α → Except PyErr (List β)
  | [] => .ok []
  | a :: as =>
    match f a with
    | .error e => .error e
    | .ok b =>
      match exMapM f as with
      | .error e => .error e
      | .ok bs => .ok (b :: bs)

/-! ## Special function library (Stirling numbers)

The implementation module `copulae.utility.special_func` is not part of the
provided sources (only its test file is), so it is modelled from the spec. -/

/-- Modelled from the spec: `stirling_first(n, k)`, the unsigned Stirling
number of the first kind, via the standard recurrence
`S(n,k) = S(n-1,k-1) + (n-1)*S(n-1,k)` with `S(0,0) = 1` (the
implementation module is not under the provided sources). -/
def stirling_first : ℕ → ℕ → ℕ
  | 0, 0 => 1
  | 0, _ + 1 => 0
  | _ + 1, 0 => 0
  | n + 1, k + 1 => stirling_first n k + n * stirling_first n (k + 1)

/-- Modelled from the spec: `stirling_second(n, k)`, the Stirling number of
the second kind, via the recurrence `S(n,k) = S(n-1,k-1) + k*S(n-1,k)` with
`S(0,0) = 1` (the implementation module is not under the provided sources). -/
def stirling_second : ℕ → ℕ → ℕ
  | 0, 0 => 1
  | 0, _ + 1 => 0
  | _ + 1, 0 => 0
  | n + 1, k + 1 => stirling_second n k + (k + 1) * stirling_second n (k + 1)

/-- Modelled from the spec: `stirling_first_all(n)`, the ordered sequence of
first-kind Stirling numbers for `k = 1..n`. -/
def stirling_first_all (n : ℕ) : List ℕ :=
  (List.range n).map fun k => stirling_first n (k + 1)

/-- Modelled from the spec: `stirling_second_all(n)`, the ordered sequence of
second-kind Stirling numbers for `k = 1..n`. -/
def stirling_second_all (n : ℕ) : List ℕ :=
  (List.range n).map fun k => stirling_second n (k + 1)

/-! ## Archimedean copula abstraction (`copulae/archimedean/abstract.py`) -/

/-- The five supported Archimedean families
(`abstract.py` line 24: `families = ('clayton', 'frank', 'amh', 'gumbel', 'joe')`). -/
inductive ArchFamily where
  | clayton | frank | amh | gumbel | joe
  deriving DecidableEq, Repr

/-- The dynamically-typed `theta` argument of `AbstractArchimedeanCopula.__init__`:
a number, a string that parses as a float, a string that does not, or a
non-numeric non-string object (e.g. a list). -/
inductive ThetaInput where
  | num (q : ℚ)
  | strNum (q : ℚ)
  | strBad
  | obj

/-- Python's `float(theta)`: numbers and numeric strings convert; a
non-numeric string raises `ValueError`; other objects raise `TypeError`. -/
def floatConv : ThetaInput → Except PyErr ℚ
  | .num q => .ok q
  | .strNum q => .ok q
  | .strBad => .error (.valueError "could not convert string to float")
  | .obj => .error (.typeError "float() argument must be a string or a real number")

/-- A fully-constructed Archimedean copula (the state validated and stored by
`AbstractArchimedeanCopula.__init__`). -/
structure ArchCopula where
  dim : ℤ
  theta : ℚ
  family : ArchFamily
  deriving DecidableEq, Repr

/-- Python's `str.lower()` on ASCII strings: map upper-case letters to their
lower-case counterparts character by character. -/
def pyLower (s : String) : String :=
  ⟨s.data.map fun c =>
    if 65 ≤ c.toNat ∧ c.toNat ≤ 90 then Char.ofNat (c.toNat + 32) else c⟩

/-- Family lookup on the already-lowercased name
(`abstract.py` lines 24-26). -/
def parseFamily (s : String) : Option ArchFamily :=
  if s = "clayton" then some .clayton
  else if s = "frank" then some .frank
  else if s = "amh" then some .amh
  else if s = "gumbel" then some .gumbel
  else if s = "joe" then some .joe
  else none

/-- `AbstractArchimedeanCopula.__init__` (`abstract.py` lines 11-28):
lowercase the family name, convert `theta` with `float` (re-raising a
`ValueError` as `ValueError('theta must be a float')`, letting a `TypeError`
propagate), check `dim >= 2`, check `theta >= 0` when `dim > 2`, then check
the family name against the supported set. -/
def mkArchimedean (dim : ℤ) (theta : ThetaInput) (family : String) :
    Except PyErr ArchCopula :=
  let famL := pyLower family
  match floatConv theta with
  | .error (.valueError _) => .error (.valueError "theta must be a float")
  | .error e => .error e
  | .ok t =>
    if dim < 2 then .error (.valueError "dim must be >= 2")
    else if 2 < dim ∧ t < 0 then
      .error (.valueError "theta can only be negative when dim = 2")
    else
      match parseFamily famL with
      | some f => .ok ⟨dim, t, f⟩
      | none =>
        .error (.valueError ("Unknown family of Archimedean copula: " ++ famL ++
          ". Use one of clayton, frank, amh, gumbel, joe"))

/-- `AbstractArchimedeanCopula.cdf` (`abstract.py` lines 30-33):
`cdf = psi(ipsi(u).sum(1)); return np.log(cdf) if log else cdf`.
`psi` and `ipsi` are abstract methods, so the embedding is parameterized by
the generator pair. -/
noncomputable def archCdf (psi ipsi : ℝ → ℝ) (u : List (List ℝ)) (log : Bool) :
    List ℝ :=
  let cdf := u.map fun row => psi (row.map ipsi).sum
  if log then cdf.map Real.log else cdf

/-! ## Rank / pseudo-observation utilities

`rank_data` (`copulae.core`) and `pobs` (`BaseCopula.pobs`) are imported
collaborators whose modules are not under the provided sources; they are
modelled from the spec (§4.2). -/

/-- Number of entries of `col` strictly below `x`. -/
def countLt (x : ℚ) (col : List ℚ) : ℕ := (col.filter fun y => y < x).length

/-- Number of entries of `col` equal to `x`. -/
def countEq (x : ℚ) (col : List ℚ) : ℕ := (col.filter fun y => y = x).length

/-- Modelled from the spec: the `'average'` tie policy of `rank_data` — tied
values receive the mean of the ranks they would occupy, i.e.
`#below + (#equal + 1) / 2`. -/
def avgRank (x : ℚ) (col : List ℚ) : ℚ :=
  (countLt x col : ℚ) + ((countEq x col : ℚ) + 1) / 2

/-- Number of columns of a row-major matrix. -/
def ncols (m : List (List ℚ)) : ℕ := (m.head?.getD []).length

/-- Column `j` of a row-major matrix. -/
def column (m : List (List ℚ)) (j : ℕ) : List ℚ := m.map fun row => row.getD j 0

/-- Modelled from the spec: `rank_data` applied within each column with the
`'average'` tie policy (entry `(i, j)` becomes the rank of `m[i][j]` inside
column `j`). -/
def colRanks (m : List (List ℚ)) : List (List ℚ) :=
  m.map fun row =>
    (List.range row.length).map fun j => avgRank (row.getD j 0) (column m j)

/-- Modelled from the spec: `pobs` — pseudo-observations are within-column
ranks divided by `n + 1`, `n` being the number of rows. -/
def pobs (m : List (List ℚ)) : List (List ℚ) :=
  (colRanks m).map fun row => row.map fun r => r / ((m.length : ℚ) + 1)

/-! ## Beta kernels -/

/-- The Beta density `beta.pdf(x, a, b)` for positive integer shape
parameters — the only case the empirical beta copula exercises, since the
parameters are ranks of the reference data:
`x^(a-1) * (1-x)^(b-1) * (a+b-1)! / ((a-1)! (b-1)!)` on `[0, 1]`, `0`
outside the support, and `0` for parameters outside the covered range. -/
def betaPdf (x a b : ℚ) : ℚ :=
  if 0 ≤ x ∧ x ≤ 1 ∧ 1 ≤ a ∧ 1 ≤ b ∧ a.den = 1 ∧ b.den = 1 then
    x ^ (a.num.toNat - 1) * (1 - x) ^ (b.num.toNat - 1) *
      ((Nat.factorial (a.num.toNat + b.num.toNat - 1) : ℚ) /
        ((Nat.factorial (a.num.toNat - 1) : ℚ) * (Nat.factorial (b.num.toNat - 1) : ℚ)))
  else 0

/-- The Beta distribution function `beta.cdf(x, a, b)` for positive integer
shape parameters, via the binomial-sum identity
`I_x(a, b) = sum_{k=a}^{a+b-1} C(a+b-1, k) x^k (1-x)^(a+b-1-k)`. -/
def betaCdf (x a b : ℚ) : ℚ :=
  if 1 ≤ a ∧ 1 ≤ b ∧ a.den = 1 ∧ b.den = 1 then
    if x < 0 then 0
    else if 1 ≤ x then 1
    else
      let A := a.num.toNat
      let N := A + b.num.toNat - 1
      (Finset.Icc A N).sum fun k => (N.choose k : ℚ) * x ^ k * (1 - x) ^ (N - k)
  else 0

/-! ## Empirical copula (`copulae/empirical/empirical.py`) -/

/-- Modelled from the spec: the boundary tolerance `EPSILON` of
`copulae.types` (IEEE double machine epsilon; that module is not under the
provided sources). -/
def EPSILON : ℚ := 1 / 2 ^ 52

/-- `true` iff reference row `r` is dominated componentwise by query row `q`. -/
def dominates (q r : List ℚ) : Bool := (r.zip q).all fun p => p.1 ≤ p.2

/-- Modelled from the spec: `emp_dist_func` (module
`copulae/empirical/distribution.py`, not under the provided sources) —
the empirical distribution function of the query rows `u` against the
reference pseudo-observations `uu`, by smoothing mode: `"none"` counts the
fraction of dominated reference rows, `"beta"` replaces indicators by Beta
distribution functions at the reference ranks, `"checkerboard"` uses the
piecewise-linear cell kernel `min(max(n*u - r + 1, 0), 1)`; all are
normalized by `n + offset`. -/
def emp_dist_func (u uu : List (List ℚ)) (smoothing : String) (offset : ℚ) :
    List ℚ :=
  let n := uu.length
  if smoothing = "none" then
    u.map fun q => ((uu.filter fun r => dominates q r).length : ℚ) / ((n : ℚ) + offset)
  else
    let ranks := uu.map fun r => r.map fun v => v * ((n : ℚ) + 1)
    if smoothing = "beta" then
      u.map fun q =>
        (ranks.map fun rr =>
          ((q.zip rr).map fun p => betaCdf p.1 p.2 ((n : ℚ) + 1 - p.2)).prod).sum /
          ((n : ℚ) + offset)
    else
      u.map fun q =>
        (ranks.map fun rr =>
          ((q.zip rr).map fun p => min (max ((n : ℚ) * p.1 - p.2 + 1) 0) 1).prod).sum /
          ((n : ℚ) + offset)

/-- The state held by a constructed `EmpiricalCopula`: the margins dataset,
the smoothing mode, the tie policy and the normalization offset. -/
structure EmpCopula where
  data : List (List ℚ)
  smoothing : String
  ties : String
  offset : ℚ
  deriving DecidableEq, Repr

/-- `EmpiricalCopula.__init__` (`empirical.py` lines 57-103): stores `ties`
through its setter (lines 235-237, which performs no validation), then
`smoothing` through its setter (lines 171-177: `None` becomes `"none"`, and
anything outside `("none", "beta", "checkerboard")` fails an assertion),
then checks the data's dimension is at least 2.  (`init_validate` of the
excluded `BaseCopula` collaborator does parameter-bounds bookkeeping and the
empirical copula has no parameters.) -/
def mkEmpirical (data : List (List ℚ)) (smoothing : Option String)
    (ties : String) (offset : ℚ) : Except PyErr EmpCopula :=
  let s := smoothing.getD "none"
  if s = "none" ∨ s = "beta" ∨ s = "checkerboard" then
    if 2 ≤ ncols data then .ok ⟨data, s, ties, offset⟩
    else .error (.assertionError "Dimension must be >= 2")
  else .error (.assertionError "Smoothing must be 'none', 'beta' or 'checkerboard'")

/-- `EmpiricalCopula.cdf` (`empirical.py` lines 109-116): raise
`ValueError` when any entry of `u` exceeds `1 + EPSILON` or is below
`-EPSILON`; otherwise evaluate `emp_dist_func` on the pseudo-observations of
the stored data and apply `log` when requested. -/
noncomputable def cdfMethod (c : EmpCopula) (u : List (List ℚ)) (log : Bool) :
    Except PyErr (List ℝ) :=
  if (u.any fun row => row.any fun x => 1 + EPSILON < x) ||
      (u.any fun row => row.any fun x => x < -EPSILON) then
    .error (.valueError "input array must be pseudo observations")
  else
    let cdf := emp_dist_func u (pobs c.data) c.smoothing c.offset
    .ok (if log then cdf.map fun q => Real.log (q : ℝ) else cdf.map fun q => (q : ℝ))

/-- One row of the beta-smoothed density (`empirical.py` lines 146-150): the
sum over the reference rank vectors of the product across dimensions of Beta
densities `Beta(rank, n + 1 - rank)` at the row's coordinates, divided by
`n + offset`. -/
def empPdfRow (dataRanks : List (List ℚ)) (n : ℕ) (offset : ℚ) (row : List ℚ) : ℚ :=
  (dataRanks.map fun rr =>
    ((row.zip rr).map fun p => betaPdf p.1 p.2 ((n : ℚ) + 1 - p.2)).prod).sum /
    ((n : ℚ) + offset)

/-- The linear branch of `EmpiricalCopula.pdf` (`empirical.py` lines
132-135 and 145-150): the query is first converted to pseudo-observations
(`u = self.pobs(u, self.ties)`), the reference data is ranked within
columns, and each transformed row is evaluated by `empPdfRow`. -/
def empPdf (data : List (List ℚ)) (offset : ℚ) (u : List (List ℚ)) : List ℚ :=
  (pobs u).map (empPdfRow (colRanks data) data.length offset)

/-- Modelled from the spec: `log_sum` (`copulae.special`, not under the
provided sources) — the log-sum-exp `log (sum_i exp a_i)` of a vector. -/
noncomputable def logSum (l : List ℝ) : ℝ := Real.log (l.map Real.exp).sum

/-- The logarithmic branch of `EmpiricalCopula.pdf` (`empirical.py` lines
137-144): for each pseudo-observation query row, the log-sum-exp of the `n`
per-reference-row sums of per-dimension Beta log-densities, minus
`log (n + offset)`. -/
noncomputable def empPdfLog (data : List (List ℚ)) (offset : ℚ)
    (u : List (List ℚ)) : List ℝ :=
  let dataRanks := colRanks data
  let n := data.length
  (pobs u).map fun row =>
    logSum (dataRanks.map fun rr =>
      ((row.zip rr).map fun p =>
        Real.log ((betaPdf p.1 p.2 ((n : ℚ) + 1 - p.2) : ℚ) : ℝ)).sum) -
      Real.log ((n : ℝ) + (offset : ℝ))

/-- `EmpiricalCopula.pdf` (`empirical.py` lines 129-150): assert the
smoothing mode is `"beta"`, then evaluate the logarithmic or the linear
branch. -/
noncomputable def pdfMethod (c : EmpCopula) (u : List (List ℚ)) (log : Bool) :
    Except PyErr (List ℝ) :=
  if c.smoothing = "beta" then
    .ok (if log then empPdfLog c.data c.offset u
      else (empPdf c.data c.offset u).map fun q => (q : ℝ))
  else .error (.assertionError "Empirical Copula only has density (PDF) for 'beta' smoothing")

/-- The density formula exactly as claim C1 words it: for each query row of
`u` itself (no pseudo-observation transform of the query), the sum over the
reference rank vectors of the product across dimensions of Beta densities at
the query row's own coordinates, divided by `n + offset`. -/
def specC1Pdf (data : List (List ℚ)) (offset : ℚ) (u : List (List ℚ)) : List ℚ :=
  let dataRanks := colRanks data
  let n := data.length
  u.map fun row =>
    (dataRanks.map fun rr =>
      (List.zipWith (fun x r => betaPdf x r ((n : ℚ) + 1 - r)) row rr).prod).sum /
      ((n : ℚ) + offset)

/-! ## `to_marginals` (`empirical.py` lines 187-211) -/

/-- Insert `x` into an ascending list, keeping it ascending. -/
def insertAsc (x : ℚ) : List ℚ → List ℚ
  | [] => [x]
  | y :: ys => if x ≤ y then x :: y :: ys else y :: insertAsc x ys

/-- Ascending sort of a column (the effect of
`np.take_along_axis(data, data.argsort(axis=0), axis=0)` on one column). -/
def sortAsc (l : List ℚ) : List ℚ := l.foldr insertAsc []

/-- NumPy integer array indexing into a 1-D array of length `len col`:
indices in `[-len, len)` select an element (negative ones from the end);
anything else raises `IndexError`. -/
def npGet (col : List ℚ) (r : ℤ) : Except PyErr ℚ :=
  let i := if r < 0 then r + (col.length : ℤ) else r
  if 0 ≤ i ∧ i < (col.length : ℤ) then .ok (col.getD i.toNat 0)
  else .error (.indexError "index out of bounds")

/-- The column-by-column lookups of `to_marginals`
(`marginals = [source[r, c] for c, r in enumerate(index.T)]`, `empirical.py`
line 210): for each column `j` of the query, index the ascending-sorted data
column `j` at the rows `index[.][j] = floor(u[.][j] * n)`; a column index
beyond the data's width or a row index out of bounds raises `IndexError`. -/
def marginalCols (c : EmpCopula) (u : List (List ℚ)) :
    Except PyErr (List (List ℚ)) :=
  exMapM (fun j =>
    if j < ncols c.data then
      exMapM (fun r => npGet (sortAsc (column c.data j)) r)
        ((u.map fun row => row.map fun x => Int.floor (x * (c.data.length : ℚ))).map
          fun irow => irow.getD j 0)
    else .error (.indexError "index out of bounds"))
    (List.range (ncols u))

/-- The final `np.transpose` of `to_marginals`, applied only when every
lookup succeeded. -/
def finishCols : Except PyErr (List (List ℚ)) → Except PyErr (List (List ℚ))
  | .error e => .error e
  | .ok cols => .ok cols.transpose

/-- `EmpiricalCopula.to_marginals` (`empirical.py` lines 187-211):
`index = floor(u * n)`, the original data is sorted within each column,
entry `(i, j)` of the result is the sorted column `j` indexed at
`index[i][j]`, and the column-major result is transposed back. -/
def to_marginals (c : EmpCopula) (u : List (List ℚ)) :
    Except PyErr (List (List ℚ)) :=
  finishCols (marginalCols c u)

end Copulae

namespace Copulae

/-- A failing element makes the whole `exMapM` fail. -/
theorem exMapM_isOkE_false {α β : Type} (f : α → Except PyErr β) (l : List α)
    (a : α) (ha : a ∈ l) (hf : isOkE (f a) = false) :
    isOkE (exMapM f l) = false := by
  induction l with
  | nil => cases ha
  | cons b bs ih =>
    simp only [exMapM]
    cases hb : f b with
    | error e => rfl
    | ok v =>
      rcases List.mem_cons.mp ha with rfl | hmem
      · rw [hb] at hf
        simp [isOkE] at hf
      · have hrest := ih hmem
        cases hr2 : exMapM f bs with
        | error e => rfl
        | ok bs2 =>
          rw [hr2] at hrest
          simp [isOkE] at hrest

/-- `insertAsc` grows the length by one. -/
theorem insertAsc_length (x : ℚ) (l : List ℚ) :
    (insertAsc x l).length = l.length + 1 := by
  induction l with
  | nil => rfl
  | cons y ys ih =>
    simp only [insertAsc]
    split
    · simp
    · simp [ih]

/-- Sorting preserves the length. -/
theorem sortAsc_length (l : List ℚ) : (sortAsc l).length = l.length := by
  induction l with
  | nil => rfl
  | cons y ys ih =>
    show (insertAsc y (sortAsc ys)).length = ys.length + 1
    rw [insertAsc_length, ih]

/-- A column has one entry per row. -/
theorem column_length (m : List (List ℚ)) (j : ℕ) :
    (column m j).length = m.length := by
  simp [column]

/-- `finishCols` fails exactly when its argument does. -/
theorem isOkE_finishCols (e : Except PyErr (List (List ℚ))) :
    isOkE (finishCols e) = isOkE e := by
  cases e <;> rfl

/-- C9: `stirling_first` and `stirling_second` return the canonical
Stirling-number values (the values of the standard recurrences) at the
spec's test vectors, and `stirling_first_all 7` / `stirling_second_all 7`
are the listed sequences, all in exact integer arithmetic. -/
theorem c9_stirling_values :
    stirling_first 5 3 = 35 ∧ stirling_first 8 4 = 6769 ∧
    stirling_second 5 3 = 25 ∧ stirling_second 8 4 = 1701 ∧
    stirling_first_all 7 = [720, 1764, 1624, 735, 175, 21, 1] ∧
    stirling_second_all 7 = [1, 63, 301, 350, 140, 21, 1] := by
  refine ⟨?_, ?_, ?_, ?_, ?_, ?_⟩ <;> decide

/-- C3: for every Archimedean copula (the generator pair `psi`/`ipsi` being
the abstract methods), `cdf(u, log=False)` computes `psi(sum_cols(ipsi(u)))`
row-wise, `cdf(u, log=True)` is the natural logarithm of that vector, and
hence `exp(cdf(u, log=True)) = cdf(u, log=False)` (exactly, in the real-number
model) whenever the CDF values are positive. -/
theorem c3_arch_cdf_log_consistency (psi ipsi : ℝ → ℝ) (u : List (List ℝ))
    (hpos : ∀ row ∈ u, 0 < psi (row.map ipsi).sum) :
    archCdf psi ipsi u false = (u.map fun row => psi (row.map ipsi).sum) ∧
    archCdf psi ipsi u true = (archCdf psi ipsi u false).map Real.log ∧
    (archCdf psi ipsi u true).map Real.exp = archCdf psi ipsi u false := by
  refine ⟨rfl, rfl, ?_⟩
  simp only [archCdf, if_true, List.map_map]
  refine List.map_congr_left ?_
  intro row hrow
  exact Real.exp_log (hpos row hrow)

/-- Witness for C3 at the generator `psi s = exp (-s)`, `ipsi = id`, and the
query matrix `[[1, 2]]`. -/
theorem c3_witness :
    (∀ row ∈ [[(1:ℝ), 2]], 0 < (fun s => Real.exp (-s)) (row.map id).sum) ∧
    (archCdf (fun s => Real.exp (-s)) id [[(1:ℝ), 2]] true).map Real.exp =
      archCdf (fun s => Real.exp (-s)) id [[(1:ℝ), 2]] false := by
  have h : ∀ row ∈ [[(1:ℝ), 2]], 0 < (fun s => Real.exp (-s)) (row.map id).sum :=
    fun row _ => Real.exp_pos _
  exact ⟨h, (c3_arch_cdf_log_consistency (fun s => Real.exp (-s)) id [[(1:ℝ), 2]] h).2.2⟩

/-- C5: Archimedean construction fails whenever `dim < 2`, fails whenever
`dim > 2` and `theta < 0`, but succeeds for `dim = 2`, `theta = -1` with a
valid family name. -/
theorem c5_dim_theta_validation :
    (∀ (dim : ℤ) (theta : ThetaInput) (family : String), dim < 2 →
      isOkE (mkArchimedean dim theta family) = false) ∧
    (∀ (dim : ℤ) (q : ℚ) (family : String), 2 < dim → q < 0 →
      isOkE (mkArchimedean dim (.num q) family) = false) ∧
    mkArchimedean 2 (.num (-1)) "clayton" = .ok ⟨2, -1, .clayton⟩ := by
  refine ⟨?_, ?_, ?_⟩
  · intro dim theta family h
    cases theta <;> simp [mkArchimedean, floatConv, isOkE, h]
  · intro dim q family h2 hq
    have hd : ¬ dim < 2 := by omega
    simp [mkArchimedean, floatConv, isOkE, hd, h2, hq]
  · with_unfolding_all decide

/-- Witness for C5: `dim = 1` fails, `dim = 3, theta = -1` fails, and
`dim = 2, theta = -1, family = "clayton"` succeeds. -/
theorem c5_witness :
    ((1:ℤ) < 2 ∧ isOkE (mkArchimedean 1 (.num 1) "clayton") = false) ∧
    (2 < (3:ℤ) ∧ (-1:ℚ) < 0 ∧ isOkE (mkArchimedean 3 (.num (-1)) "clayton") = false) ∧
    mkArchimedean 2 (.num (-1)) "clayton" = .ok ⟨2, -1, .clayton⟩ := by
  refine ⟨⟨by norm_num, c5_dim_theta_validation.1 1 (.num 1) "clayton" (by norm_num)⟩,
    ⟨by norm_num, by norm_num,
      c5_dim_theta_validation.2.1 3 (-1) "clayton" (by norm_num) (by norm_num)⟩,
    c5_dim_theta_validation.2.2⟩

/-- C6: a theta that is not convertible to a real number makes construction
fail for every dimension and family — a non-numeric string raises
`ValueError('theta must be a float')` and a non-numeric non-string object
raises the `TypeError` from `float()`; no instance is ever returned. -/
theorem c6_theta_not_convertible (dim : ℤ) (family : String) :
    mkArchimedean dim .strBad family = .error (.valueError "theta must be a float") ∧
    mkArchimedean dim .obj family =
      .error (.typeError "float() argument must be a string or a real number") ∧
    isOkE (mkArchimedean dim .strBad family) = false ∧
    isOkE (mkArchimedean dim .obj family) = false :=
  ⟨rfl, rfl, rfl, rfl⟩

/-- C7: the empirical `cdf` raises a `ValueError` whenever some entry of `u`
exceeds `1 + EPSILON` or is below `-EPSILON`, and passes the domain check
(returning normally) whenever every entry lies in `[-EPSILON, 1 + EPSILON]`
— in particular for entries exactly `0` or `1`. -/
theorem c7_cdf_domain_check (c : EmpCopula) (u : List (List ℚ)) (log : Bool) :
    ((∃ row ∈ u, ∃ x ∈ row, 1 + EPSILON < x ∨ x < -EPSILON) →
      cdfMethod c u log = .error (.valueError "input array must be pseudo observations")) ∧
    ((∀ row ∈ u, ∀ x ∈ row, -EPSILON ≤ x ∧ x ≤ 1 + EPSILON) →
      isOkE (cdfMethod c u log) = true) := by
  constructor
  · rintro ⟨row, hrow, x, hx, hbad⟩
    have hg : ((u.any fun r => r.any fun y => 1 + EPSILON < y) ||
        (u.any fun r => r.any fun y => y < -EPSILON)) = true := by
      simp only [Bool.or_eq_true, List.any_eq_true, decide_eq_true_eq]
      rcases hbad with h | h
      · exact Or.inl ⟨row, hrow, x, hx, h⟩
      · exact Or.inr ⟨row, hrow, x, hx, h⟩
    simp [cdfMethod, hg]
  · intro hall
    have hg : ((u.any fun r => r.any fun y => 1 + EPSILON < y) ||
        (u.any fun r => r.any fun y => y < -EPSILON)) = false := by
      rw [Bool.or_eq_false_iff]
      constructor
      · rw [List.any_eq_false]
        intro r hr hany
        obtain ⟨x, hx, hlt⟩ := List.any_eq_true.mp hany
        rw [decide_eq_true_eq] at hlt
        exact absurd hlt (not_lt.mpr (hall r hr x hx).2)
      · rw [List.any_eq_false]
        intro r hr hany
        obtain ⟨x, hx, hlt⟩ := List.any_eq_true.mp hany
        rw [decide_eq_true_eq] at hlt
        exact absurd hlt (not_lt.mpr (hall r hr x hx).1)
    simp [cdfMethod, hg, isOkE]

/-- Witness for C7: an entry `2 > 1 + EPSILON` raises the `ValueError`, while
the boundary entries `0` and `1` pass the domain check. -/
theorem c7_witness :
    (∃ row ∈ [[(2:ℚ), 0]], ∃ x ∈ row, 1 + EPSILON < x ∨ x < -EPSILON) ∧
    cdfMethod ⟨[[1, 2], [2, 1]], "none", "average", 0⟩ [[(2:ℚ), 0]] false =
      .error (.valueError "input array must be pseudo observations") ∧
    (∀ row ∈ [[(0:ℚ), 1]], ∀ x ∈ row, -EPSILON ≤ x ∧ x ≤ 1 + EPSILON) ∧
    isOkE (cdfMethod ⟨[[1, 2], [2, 1]], "none", "average", 0⟩ [[(0:ℚ), 1]] false) = true := by
  have h1 : ∃ row ∈ [[(2:ℚ), 0]], ∃ x ∈ row, 1 + EPSILON < x ∨ x < -EPSILON := by
    with_unfolding_all decide
  have h2 : ∀ row ∈ [[(0:ℚ), 1]], ∀ x ∈ row, -EPSILON ≤ x ∧ x ≤ 1 + EPSILON := by
    with_unfolding_all decide
  exact ⟨h1, (c7_cdf_domain_check _ _ false).1 h1, h2, (c7_cdf_domain_check _ _ false).2 h2⟩

/-- C8: whenever the smoothing mode is not `"beta"`, every call to `pdf`
fails the assertion and never returns a value. -/
theorem c8_pdf_requires_beta (c : EmpCopula) (u : List (List ℚ)) (log : Bool)
    (h : c.smoothing ≠ "beta") :
    pdfMethod c u log =
      .error (.assertionError "Empirical Copula only has density (PDF) for 'beta' smoothing") := by
  simp [pdfMethod, h]

/-- Witness for C8 at smoothing `"none"`. -/
theorem c8_witness :
    ((⟨[[(1:ℚ), 2], [2, 1]], "none", "average", 0⟩ : EmpCopula).smoothing ≠ "beta") ∧
    pdfMethod ⟨[[(1:ℚ), 2], [2, 1]], "none", "average", 0⟩ [[1/2, 1/2]] false =
      .error (.assertionError "Empirical Copula only has density (PDF) for 'beta' smoothing") := by
  refine ⟨by with_unfolding_all decide, c8_pdf_requires_beta _ _ _ (by with_unfolding_all decide)⟩

/-- C4 counterexample: an unrecognized ties string does NOT fail at
construction — `EmpiricalCopula` accepts `ties = "bogus"` (the `ties` setter,
`empirical.py` lines 235-237, stores the value without validation). -/
theorem c4_counterexample :
    isOkE (mkEmpirical [[1, 2], [2, 1]] none "bogus" 0) = true := by with_unfolding_all decide

/-- C4 amended: an unrecognized Archimedean family name (case-insensitively
outside the five) and an unrecognized smoothing string each fail immediately
at construction, and no instance is returned; the ties string, however, is
NOT validated — construction succeeds with any ties string. -/
theorem c4_construction_validation :
    (∀ (dim : ℤ) (theta : ThetaInput) (family : String),
      parseFamily (pyLower family) = none →
      isOkE (mkArchimedean dim theta family) = false) ∧
    (∀ (data : List (List ℚ)) (s ties : String) (offset : ℚ),
      s ≠ "none" ∧ s ≠ "beta" ∧ s ≠ "checkerboard" →
      isOkE (mkEmpirical data (some s) ties offset) = false) ∧
    (∀ (data : List (List ℚ)) (ties : String) (offset : ℚ), 2 ≤ ncols data →
      isOkE (mkEmpirical data none ties offset) = true) := by
  refine ⟨?_, ?_, ?_⟩
  · intro dim theta family hfam
    cases theta <;>
      simp only [mkArchimedean, floatConv, hfam] <;>
      first
      | rfl
      | (split_ifs <;> rfl)
  · intro data s ties offset ⟨h1, h2, h3⟩
    simp [mkEmpirical, h1, h2, h3, isOkE]
  · intro data ties offset h
    simp [mkEmpirical, h, isOkE]

/-- Witness for C4: family `"gaussian"` fails, smoothing `"spline"` fails,
and ties `"bogus"` is accepted. -/
theorem c4_witness :
    (parseFamily (pyLower "gaussian") = none ∧
      isOkE (mkArchimedean 2 (.num 1) "gaussian") = false) ∧
    (("spline" : String) ≠ "none" ∧ ("spline" : String) ≠ "beta" ∧
        ("spline" : String) ≠ "checkerboard" ∧
      isOkE (mkEmpirical [[1, 2], [2, 1]] (some "spline") "average" 0) = false) ∧
    (2 ≤ ncols [[(1:ℚ), 2], [2, 1]] ∧
      isOkE (mkEmpirical [[1, 2], [2, 1]] none "whatever" 0) = true) := by
  refine ⟨⟨by with_unfolding_all decide, c4_construction_validation.1 2 (.num 1) "gaussian" (by with_unfolding_all decide)⟩,
    ⟨by with_unfolding_all decide, by with_unfolding_all decide, by with_unfolding_all decide,
      c4_construction_validation.2.1 [[1, 2], [2, 1]] "spline" "average" 0
        ⟨by with_unfolding_all decide, by with_unfolding_all decide, by with_unfolding_all decide⟩⟩,
    ⟨by with_unfolding_all decide, c4_construction_validation.2.2 [[1, 2], [2, 1]] "whatever" 0 (by with_unfolding_all decide)⟩⟩

/-- `zipWith` as mapping over the zip. -/
theorem zipWith_eq_map_zip {α β γ : Type} (f : α → β → γ) :
    ∀ (l1 : List α) (l2 : List β),
      List.zipWith f l1 l2 = (l1.zip l2).map fun p => f p.1 p.2
  | [], _ => by simp
  | _ :: _, [] => by simp
  | a :: as, b :: bs => by
    simp [List.zip_cons_cons, zipWith_eq_map_zip f as bs]

/-- C1 counterexample: with reference data `[[1,2],[2,1]]`, offset `0` and
query `[[1/4,1/2],[1/2,1/4]]`, `pdf(u, log=False)` returns `[10/9, 10/9]`
(the query is first converted to pseudo-observations `[[1/3,2/3],[2/3,1/3]]`),
while the claim's formula — Beta densities at the query rows' own
coordinates — gives `[1, 1]`. -/
theorem c1_counterexample :
    pdfMethod ⟨[[1, 2], [2, 1]], "beta", "average", 0⟩ [[1/4, 1/2], [1/2, 1/4]] false ≠
      .ok ((specC1Pdf [[1, 2], [2, 1]] 0 [[1/4, 1/2], [1/2, 1/4]]).map fun q => (q : ℝ)) := by
  have h1 : empPdf [[1, 2], [2, 1]] 0 [[1/4, 1/2], [1/2, 1/4]] = [10/9, 10/9] := by
    with_unfolding_all decide
  have h2 : specC1Pdf [[1, 2], [2, 1]] 0 [[1/4, 1/2], [1/2, 1/4]] = [1, 1] := by
    with_unfolding_all decide
  intro h
  rw [pdfMethod, if_pos rfl] at h
  replace h := Except.ok.inj h
  rw [if_neg (by simp)] at h
  rw [h1, h2] at h
  have h3 : ([10 / 9, 10 / 9] : List ℚ) = [1, 1] :=
    List.map_injective_iff.mpr (Rat.cast_injective (α := ℝ)) h
  norm_num [List.cons.injEq] at h3

/-- C1 amended: for every EmpiricalCopula with beta smoothing,
`pdf(u, log=False)` FIRST converts the query matrix to pseudo-observations
(within-column ranks over `n+1`); it then returns, for each transformed
query row, the sum over all `n` reference rows' rank vectors of the product
across dimensions of `Beta(rank, n+1-rank)` densities evaluated at that
transformed row, divided by `n + offset`. -/
theorem c1_pdf_formula (c : EmpCopula) (u : List (List ℚ))
    (hbeta : c.smoothing = "beta") :
    pdfMethod c u false =
      .ok ((specC1Pdf c.data c.offset (pobs u)).map fun q => (q : ℝ)) := by
  have h : empPdf c.data c.offset u = specC1Pdf c.data c.offset (pobs u) := by
    simp only [empPdf, specC1Pdf]
    refine List.map_congr_left fun rowp _ => ?_
    rw [empPdfRow]
    congr 1
    refine congrArg List.sum ?_
    refine List.map_congr_left fun rr _ => ?_
    rw [zipWith_eq_map_zip]
  rw [pdfMethod, if_pos hbeta, h]
  simp

/-- Witness for C1 amended, at the beta-smoothed copula over `[[1,2],[2,1]]`
and the single-row query `[[1/2, 1/2]]`. -/
theorem c1_witness :
    ((⟨[[(1:ℚ), 2], [2, 1]], "beta", "average", 0⟩ : EmpCopula).smoothing = "beta") ∧
    pdfMethod ⟨[[(1:ℚ), 2], [2, 1]], "beta", "average", 0⟩ [[1/2, 1/2]] false =
      .ok ((specC1Pdf [[(1:ℚ), 2], [2, 1]] 0 (pobs [[1/2, 1/2]])).map fun q => (q : ℝ)) :=
  ⟨rfl, c1_pdf_formula _ _ rfl⟩

/-- The exponential of a list sum is the product of the exponentials. -/
theorem exp_list_sum (l : List ℝ) : Real.exp l.sum = (l.map Real.exp).prod := by
  induction l with
  | nil => simp
  | cons a as ih => simp [Real.exp_add, ih]

/-- Casting a rational list sum to the reals. -/
theorem cast_list_sum (l : List ℚ) :
    ((l.sum : ℚ) : ℝ) = (l.map (fun q : ℚ => (q : ℝ))).sum := by
  induction l with
  | nil => simp
  | cons a as ih => simp [ih]

/-- Casting a rational list product to the reals. -/
theorem cast_list_prod (l : List ℚ) :
    ((l.prod : ℚ) : ℝ) = (l.map (fun q : ℚ => (q : ℝ))).prod := by
  induction l with
  | nil => simp
  | cons a as ih => simp [ih]

/-- An integer-valued rational stays integer-valued under `n + 1 - ·`. -/
theorem den_nat_add_one_sub (n : ℕ) (r : ℚ) (h : r.den = 1) :
    ((n : ℚ) + 1 - r).den = 1 := by
  have hr : (r.num : ℚ) = r := (Rat.den_eq_one_iff r).mp h
  have h1 : (n : ℚ) + 1 - r = (((n : ℤ) + 1 - r.num : ℤ) : ℚ) := by
    push_cast
    rw [hr]
  rw [h1, Rat.den_intCast]

/-- The Beta density with integer parameters `1 ≤ a`, `1 ≤ b` is positive on
the open unit interval. -/
theorem betaPdf_pos (x a b : ℚ) (hx0 : 0 < x) (hx1 : x < 1)
    (ha1 : 1 ≤ a) (had : a.den = 1) (hb1 : 1 ≤ b) (hbd : b.den = 1) :
    0 < betaPdf x a b := by
  rw [betaPdf, if_pos ⟨le_of_lt hx0, le_of_lt hx1, ha1, hb1, had, hbd⟩]
  have h1 : (0:ℚ) < x ^ (a.num.toNat - 1) := pow_pos hx0 _
  have h2 : (0:ℚ) < (1 - x) ^ (b.num.toNat - 1) := pow_pos (by linarith) _
  have h3 : (0:ℚ) < (Nat.factorial (a.num.toNat + b.num.toNat - 1) : ℚ) := by
    exact_mod_cast Nat.factorial_pos _
  have h4 : (0:ℚ) < (Nat.factorial (a.num.toNat - 1) : ℚ) := by
    exact_mod_cast Nat.factorial_pos _
  have h5 : (0:ℚ) < (Nat.factorial (b.num.toNat - 1) : ℚ) := by
    exact_mod_cast Nat.factorial_pos _
  exact mul_pos (mul_pos h1 h2) (div_pos h3 (mul_pos h4 h5))

/-- C2: for a beta-smoothed EmpiricalCopula, `pdf(u, log=True)` is computed
by the log-sum-exp branch `empPdfLog` (log-sum-exp over the per-reference-row
sums of Beta log-densities, minus `log (n + offset)`), and that branch equals
the natural logarithm of `pdf(u, log=False)` taken entrywise — under the
reachable side conditions: nonempty data, positive `n + offset`, integer
ranks in `[1, n]`, and pseudo-observations strictly inside `(0, 1)`. -/
theorem c2_pdf_log_branch (c : EmpCopula) (u : List (List ℚ))
    (hbeta : c.smoothing = "beta")
    (hne : c.data ≠ [])
    (hoff : 0 < (c.data.length : ℚ) + c.offset)
    (hr : ∀ rr ∈ colRanks c.data, ∀ r ∈ rr,
      r.den = 1 ∧ 1 ≤ r ∧ r ≤ (c.data.length : ℚ))
    (hu : ∀ row ∈ pobs u, ∀ x ∈ row, 0 < x ∧ x < 1) :
    pdfMethod c u true = .ok (empPdfLog c.data c.offset u) ∧
    empPdfLog c.data c.offset u =
      (empPdf c.data c.offset u).map fun q => Real.log ((q : ℚ) : ℝ) := by
  constructor
  · rw [pdfMethod, if_pos hbeta]
    simp
  · simp only [empPdfLog, empPdf, logSum]
    rw [List.map_map]
    refine List.map_congr_left fun row hrowm => ?_
    simp only [Function.comp]
    have hprodpos : ∀ rr ∈ colRanks c.data,
        0 < ((row.zip rr).map fun p =>
          betaPdf p.1 p.2 ((c.data.length : ℚ) + 1 - p.2)).prod := by
      intro rr hrr
      apply List.prod_pos
      intro q hq
      obtain ⟨p, hp, rfl⟩ := List.mem_map.mp hq
      obtain ⟨hp1, hp2⟩ := List.of_mem_zip hp
      obtain ⟨hd, h1r, hrn⟩ := hr rr hrr p.2 hp2
      exact betaPdf_pos _ _ _ (hu row hrowm p.1 hp1).1 (hu row hrowm p.1 hp1).2
        h1r hd (by linarith) (den_nat_add_one_sub c.data.length p.2 hd)
    have hmapeq : ((colRanks c.data).map fun rr => ((row.zip rr).map fun p =>
          Real.log ((betaPdf p.1 p.2 ((c.data.length : ℚ) + 1 - p.2) : ℚ) : ℝ)).sum).map
            Real.exp =
        (colRanks c.data).map fun rr => ((((row.zip rr).map fun p =>
          betaPdf p.1 p.2 ((c.data.length : ℚ) + 1 - p.2)).prod : ℚ) : ℝ) := by
      rw [List.map_map]
      refine List.map_congr_left fun rr hrr => ?_
      simp only [Function.comp]
      rw [exp_list_sum, List.map_map, cast_list_prod, List.map_map]
      refine congrArg List.prod (List.map_congr_left fun p hp => ?_)
      obtain ⟨hp1, hp2⟩ := List.of_mem_zip hp
      obtain ⟨hd, h1r, hrn⟩ := hr rr hrr p.2 hp2
      have hpos : 0 < betaPdf p.1 p.2 ((c.data.length : ℚ) + 1 - p.2) :=
        betaPdf_pos _ _ _ (hu row hrowm p.1 hp1).1 (hu row hrowm p.1 hp1).2
          h1r hd (by linarith) (den_nat_add_one_sub c.data.length p.2 hd)
      simp only [Function.comp]
      exact Real.exp_log (by exact_mod_cast hpos)
    have hSpos : 0 < ((colRanks c.data).map fun rr => ((row.zip rr).map fun p =>
        betaPdf p.1 p.2 ((c.data.length : ℚ) + 1 - p.2)).prod).sum := by
      apply List.sum_pos
      · intro a ha
        obtain ⟨rr, hrr, rfl⟩ := List.mem_map.mp ha
        exact hprodpos rr hrr
      · simp only [ne_eq, List.map_eq_nil_iff, colRanks]
        exact hne
    have hcast : ((((colRanks c.data).map fun rr => ((row.zip rr).map fun p =>
        betaPdf p.1 p.2 ((c.data.length : ℚ) + 1 - p.2)).prod).sum : ℚ) : ℝ) =
        ((colRanks c.data).map fun rr => ((((row.zip rr).map fun p =>
          betaPdf p.1 p.2 ((c.data.length : ℚ) + 1 - p.2)).prod : ℚ) : ℝ)).sum := by
      rw [cast_list_sum, List.map_map]
      rfl
    rw [hmapeq, ← hcast, empPdfRow, Rat.cast_div]
    rw [Real.log_div (by exact_mod_cast ne_of_gt hSpos)
      (by exact_mod_cast ne_of_gt hoff)]
    norm_cast

/-- Witness for C2 at the beta-smoothed copula over `[[1,2],[2,1]]`, offset
`0`, and the single-row query `[[1/2, 1/2]]`. -/
theorem c2_witness :
    ((⟨[[(1:ℚ), 2], [2, 1]], "beta", "average", 0⟩ : EmpCopula).smoothing = "beta") ∧
    ([[(1:ℚ), 2], [2, 1]] : List (List ℚ)) ≠ [] ∧
    (0 < (([[(1:ℚ), 2], [2, 1]] : List (List ℚ)).length : ℚ) + 0) ∧
    (∀ rr ∈ colRanks [[(1:ℚ), 2], [2, 1]], ∀ r ∈ rr,
      r.den = 1 ∧ 1 ≤ r ∧ r ≤ (([[(1:ℚ), 2], [2, 1]] : List (List ℚ)).length : ℚ)) ∧
    (∀ row ∈ pobs [[(1:ℚ)/2, 1/2]], ∀ x ∈ row, 0 < x ∧ x < 1) ∧
    (pdfMethod ⟨[[(1:ℚ), 2], [2, 1]], "beta", "average", 0⟩ [[(1:ℚ)/2, 1/2]] true =
        .ok (empPdfLog [[(1:ℚ), 2], [2, 1]] 0 [[(1:ℚ)/2, 1/2]]) ∧
      empPdfLog [[(1:ℚ), 2], [2, 1]] 0 [[(1:ℚ)/2, 1/2]] =
        (empPdf [[(1:ℚ), 2], [2, 1]] 0 [[(1:ℚ)/2, 1/2]]).map fun q =>
          Real.log ((q : ℚ) : ℝ)) := by
  have h1 : ((⟨[[(1:ℚ), 2], [2, 1]], "beta", "average", 0⟩ : EmpCopula).smoothing = "beta") :=
    rfl
  have h2 : ([[(1:ℚ), 2], [2, 1]] : List (List ℚ)) ≠ [] := by simp
  have h3 : (0 < (([[(1:ℚ), 2], [2, 1]] : List (List ℚ)).length : ℚ) + 0) := by norm_num
  have h4 : ∀ rr ∈ colRanks [[(1:ℚ), 2], [2, 1]], ∀ r ∈ rr,
      r.den = 1 ∧ 1 ≤ r ∧ r ≤ (([[(1:ℚ), 2], [2, 1]] : List (List ℚ)).length : ℚ) := by
    with_unfolding_all decide
  have h5 : ∀ row ∈ pobs [[(1:ℚ)/2, 1/2]], ∀ x ∈ row, 0 < x ∧ x < 1 := by
    with_unfolding_all decide
  exact ⟨h1, h2, h3, h4, h5,
    c2_pdf_log_branch ⟨[[(1:ℚ), 2], [2, 1]], "beta", "average", 0⟩ [[(1:ℚ)/2, 1/2]]
      h1 h2 h3 h4 h5⟩

/-- C10: when some coordinate of `u` is exactly `1`, `to_marginals` computes
the lookup index `floor(1 * n) = n` into the `n`-row column-wise sorted
data, which is out of bounds, so the call fails (raises) instead of
returning the largest order statistic. -/
theorem c10_to_marginals_boundary (c : EmpCopula) (u : List (List ℚ))
    (hrect : ∀ row ∈ u, row.length = ncols u)
    (hone : ∃ row ∈ u, (1 : ℚ) ∈ row) :
    isOkE (to_marginals c u) = false := by
  obtain ⟨row, hrow, hmem⟩ := hone
  obtain ⟨j, hj, hval⟩ := List.getElem_of_mem hmem
  have hjc : j < ncols u := by rw [← hrect row hrow]; exact hj
  rw [to_marginals, isOkE_finishCols, marginalCols]
  apply exMapM_isOkE_false _ _ j (List.mem_range.mpr hjc)
  dsimp only
  split_ifs with hjd
  · apply exMapM_isOkE_false _ _ ((c.data.length : ℤ))
    · rw [List.map_map]
      refine List.mem_map.mpr ⟨row, hrow, ?_⟩
      show ((row.map fun x => Int.floor (x * (c.data.length : ℚ))).getD j 0) = _
      rw [List.getD_eq_getElem _ _ (by simpa using hj), List.getElem_map, hval]
      simp
    · have hnn : ¬ ((c.data.length : ℤ) < 0) := by omega
      simp [npGet, hnn, sortAsc_length, column_length, isOkE]
  · rfl

/-- Witness for C10: a query with a coordinate exactly `1` makes
`to_marginals` fail on a 2-row dataset. -/
theorem c10_witness :
    (∀ row ∈ [[(1:ℚ), 1/2]], row.length = ncols [[(1:ℚ), 1/2]]) ∧
    (∃ row ∈ [[(1:ℚ), 1/2]], (1:ℚ) ∈ row) ∧
    isOkE (to_marginals ⟨[[1, 2], [2, 1]], "none", "average", 0⟩ [[(1:ℚ), 1/2]]) = false := by
  refine ⟨by with_unfolding_all decide, by with_unfolding_all decide,
    c10_to_marginals_boundary _ _ (by with_unfolding_all decide) (by with_unfolding_all decide)⟩

end Copulae
